import Mathlib

/-!
Verification of the iCELink-SWIO gateware against its specification.

The development shallowly embeds the synchronous state machines of the
design as explicit step functions on state records:

* `Ard` — the Ardulink byte-protocol command dispatcher
  (`iCELink/ardulink.py`, class `ArdulinkProtocol`);
* `Bw` — the single-wire bit emitter
  (`iCELink/swio/bitWriter.py`, class `SWIOBitWriter`);
* `Br` — the single-wire bit decoder
  (`iCELink/swio/bitReader.py`, class `SWIOBitReader`);
* `Tr` — the register transactor
  (`iCELink/swio/__init__.py`, class `SWIO`, FSM `swio`);
* `Cs` — the composition of transactor, emitter and decoder as wired in
  `SWIO.elaborate`.

All signals are modelled at their RTL widths: an `n`-bit signal is a `Nat`
kept below `2 ^ n` by reducing modulo `2 ^ n` exactly where the RTL
assigns it.  Synchronous (`m.d.sync`) assignments take effect in the
produced next state; combinational (`m.d.comb`) outputs are separate
functions of the current state and inputs, defaulting to zero as in the
RTL.  Statement blocks that appear later in an `elaborate` body override
earlier assignments to the same signal within a cycle, which is reflected
by letting the FSM case override the free-running timer blocks.

The platform constants are those of the iCEBreaker target used by the
design: a 12 MHz system clock, so `baseFrequency = 12` and the
millisecond delay counter counts `12000` cycles.
-/

namespace ICELink

/-- Little-endian list of the low `n` bits of `x` (least significant first). -/
def bitsLSB : Nat → Nat → List Bool
  | _, 0 => []
  | x, n + 1 => decide (x % 2 = 1) :: bitsLSB (x / 2) n

/-- Value of the low `n` bits of `x` in reversed order: bit `j` of the
result is bit `n - 1 - j` of `x`.  This is the semantics of the Torii
slice reversal `sig[::-1]` used by the transactor on `reg` and
`dataWrite`. -/
def revBits : Nat → Nat → Nat
  | 0, _ => 0
  | n + 1, x => 2 * revBits n x + x / 2 ^ n % 2

theorem bitsLSB_snoc (n x : Nat) :
    bitsLSB x (n + 1) = bitsLSB x n ++ [decide (x / 2 ^ n % 2 = 1)] := by
  induction n generalizing x with
  | zero => simp [bitsLSB]
  | succ n ih =>
      rw [bitsLSB, ih (x / 2), bitsLSB]
      simp [Nat.div_div_eq_div_mul, pow_succ, mul_comm]

/-- Shifting out the bit-reversed value least-significant-bit first yields
the bits of the original value most-significant-bit first. -/
theorem bitsLSB_revBits (n x : Nat) :
    bitsLSB (revBits n x) n = (bitsLSB x n).reverse := by
  induction n generalizing x with
  | zero => simp [bitsLSB, revBits]
  | succ n ih =>
      have hb : x / 2 ^ n % 2 < 2 := Nat.mod_lt _ (by omega)
      rw [revBits, bitsLSB]
      have h1 : (2 * revBits n x + x / 2 ^ n % 2) % 2 = x / 2 ^ n % 2 := by
        omega
      have h2 : (2 * revBits n x + x / 2 ^ n % 2) / 2 = revBits n x := by
        omega
      rw [h1, h2, ih, bitsLSB_snoc]
      simp

/-- Read byte `k` of a 32-bit value, as `dataRead.bit_select(8 * k, 8)`
does (an out-of-range select of a 32-bit signal reads zero). -/
def getByte (d k : Nat) : Nat := d / 2 ^ (8 * k) % 256

/-- Write byte `k` of the 32-bit value `d`, as the assignment to
`dataWrite.bit_select(8 * k, 8)` does; selects that lie beyond the
signal are dropped. -/
def setByte (d k v : Nat) : Nat :=
  if k < 4 then d % 2 ^ (8 * k) + v % 256 * 2 ^ (8 * k) + d / 2 ^ (8 * k + 8) * 2 ^ (8 * k + 8)
  else d

/-! ## The Ardulink command dispatcher (`ArdulinkProtocol`) -/

/-- States of the `protocol` FSM in `ArdulinkProtocol.elaborate`. -/
inductive AFsm
  | INIT | WAIT_COMMAND | DISPATCH | RECV_REG_NUMBER | RECV_REGISTER
  | WAIT_READ | SEND_READ_VALUE | RECV_WRITE_VALUE | GRAB_WRITE_VALUE
  | WAIT_WRITE | SEND_ACK
  deriving DecidableEq, Repr

/-- Synchronous state of `ArdulinkProtocol`: the FSM state plus the
`operation` (the `RegisterOperation` IntEnum: 1 = read, 2 = write, 0 at
reset), the `valueByte` counter (3-bit), and the registered outputs
`targetPower`, `reg` (7-bit) and `dataWrite` (32-bit). -/
structure AState where
  fsm : AFsm
  operation : Nat
  valueByte : Nat
  targetPower : Bool
  reg : Nat
  dataWrite : Nat
  deriving DecidableEq, Repr

/-- Per-cycle inputs of `ArdulinkProtocol`. -/
structure AIn where
  recvData : Nat
  recvReady : Bool
  sendReady : Bool
  dataRead : Nat
  done : Bool
  ready : Bool
  deriving DecidableEq, Repr

/-- Combinational outputs of `ArdulinkProtocol` (all default to zero). -/
structure AOut where
  recvDone : Bool
  sendData : Nat
  sendStart : Bool
  startRead : Bool
  startWrite : Bool
  deriving DecidableEq, Repr

/-- The all-zero output value. -/
def AOut.z : AOut := ⟨false, 0, false, false, false⟩

/-- Combinational outputs of the `protocol` FSM for the current cycle. -/
def outA (s : AState) (i : AIn) : AOut :=
  match s.fsm with
  | .INIT => if i.sendReady && i.ready then { AOut.z with sendData := 0x21, sendStart := true } else AOut.z
  | .WAIT_COMMAND => if i.recvReady then { AOut.z with recvDone := true } else AOut.z
  | .DISPATCH => AOut.z
  | .RECV_REG_NUMBER => if i.recvReady then { AOut.z with recvDone := true } else AOut.z
  | .RECV_REGISTER => if s.operation = 1 then { AOut.z with startRead := true } else AOut.z
  | .WAIT_READ => AOut.z
  | .SEND_READ_VALUE =>
      if i.sendReady then
        { AOut.z with sendData := getByte (i.dataRead % 2 ^ 32) s.valueByte, sendStart := true }
      else AOut.z
  | .RECV_WRITE_VALUE =>
      if i.recvReady then { AOut.z with recvDone := true }
      else if s.valueByte = 4 then { AOut.z with startWrite := true }
      else AOut.z
  | .GRAB_WRITE_VALUE => AOut.z
  | .WAIT_WRITE => AOut.z
  | .SEND_ACK => if i.sendReady then { AOut.z with sendData := 0x2B, sendStart := true } else AOut.z

/-- Synchronous step of the `protocol` FSM. -/
def stepA (s : AState) (i : AIn) : AState :=
  match s.fsm with
  | .INIT => if i.sendReady && i.ready then { s with fsm := .WAIT_COMMAND } else s
  | .WAIT_COMMAND => if i.recvReady then { s with fsm := .DISPATCH } else s
  | .DISPATCH =>
      let rd := i.recvData % 256
      if rd = 0x3F then { s with fsm := .SEND_ACK }
      else if rd = 0x70 then { s with targetPower := true, fsm := .SEND_ACK }
      else if rd = 0x50 then { s with targetPower := false, fsm := .SEND_ACK }
      else if rd = 0x77 then { s with operation := 2, fsm := .RECV_REG_NUMBER }
      else if rd = 0x72 then { s with operation := 1, fsm := .RECV_REG_NUMBER }
      else { s with fsm := .WAIT_COMMAND }
  | .RECV_REG_NUMBER => if i.recvReady then { s with fsm := .RECV_REGISTER } else s
  | .RECV_REGISTER =>
      let s := { s with reg := i.recvData % 128 }
      if s.operation = 1 then { s with fsm := .WAIT_READ }
      else if s.operation = 2 then { s with valueByte := 0, fsm := .RECV_WRITE_VALUE }
      else s
  | .WAIT_READ => if i.done then { s with valueByte := 0, fsm := .SEND_READ_VALUE } else s
  | .SEND_READ_VALUE =>
      if i.sendReady then { s with valueByte := (s.valueByte + 1) % 8 }
      else if s.valueByte = 4 then { s with fsm := .WAIT_COMMAND }
      else s
  | .RECV_WRITE_VALUE =>
      if i.recvReady then { s with fsm := .GRAB_WRITE_VALUE }
      else if s.valueByte = 4 then { s with fsm := .WAIT_WRITE }
      else s
  | .GRAB_WRITE_VALUE =>
      { s with dataWrite := setByte s.dataWrite s.valueByte (i.recvData % 256),
               valueByte := (s.valueByte + 1) % 8,
               fsm := .RECV_WRITE_VALUE }
  | .WAIT_WRITE => if i.done then { s with fsm := .SEND_ACK } else s
  | .SEND_ACK => if i.sendReady then { s with fsm := .WAIT_COMMAND } else s

/-- Run the dispatcher over a list of per-cycle inputs. -/
def aRun (s : AState) : List AIn → AState
  | [] => s
  | i :: rest => aRun (stepA s i) rest

/-- The per-cycle combinational outputs along a run. -/
def aOutsList (s : AState) : List AIn → List AOut
  | [] => []
  | i :: rest => outA s i :: aOutsList (stepA s i) rest

/-- The bytes handed to the send channel along a run (in order): `sendData`
on the cycles where `sendStart` pulses. -/
def sendEvents (s : AState) (ins : List AIn) : List Nat :=
  (aOutsList s ins).filterMap fun o => if o.sendStart then some o.sendData else none

/-- Indices of the cycles on which the given output predicate pulses. -/
def cyclesWhere (p : AOut → Bool) (s : AState) (ins : List AIn) : List Nat :=
  ((aOutsList s ins).enum.filterMap fun c => if p c.2 then some c.1 else none)

/-- A quiet input cycle: nothing offered on either byte channel. -/
def AIn.quiet : AIn := ⟨0, false, false, 0, false, false⟩

/-- Deliver one byte the way the UART front end does: one cycle with
`recvReady` high while the dispatcher is waiting, then one cycle with the
byte still presented on `recvData` while the dispatcher processes it. -/
def offer (b : Nat) : List AIn :=
  [⟨b, true, false, 0, false, false⟩, ⟨b, false, false, 0, false, false⟩]

/-- Input trace for the register-write scenario: command `w`, register
byte `0x7a`, data bytes `0x15`, `0xca`, `0xaa`, `0x55`, a few idle
cycles, then the transactor's `done` pulse and a `sendReady` pulse. -/
def c4Inputs : List AIn :=
  offer 0x77 ++ offer 0x7a ++ offer 0x15 ++ offer 0xca ++ offer 0xaa ++ offer 0x55 ++
  [.quiet, .quiet, .quiet, .quiet,
   ⟨0, false, false, 0, true, false⟩,
   ⟨0, false, true, 0, false, false⟩,
   .quiet]

/-- Input trace for the register-read scenario: command `r`, register byte
`0x35`, idle cycles, the transactor's `done` pulse with
`dataRead = 0xfeedaa55`, four `sendReady` pulses (each followed by a busy
cycle, as the UART raises `tx.rdy` again only after accepting a byte),
then the next command byte `?` offered. -/
def c1Inputs : List AIn :=
  offer 0x72 ++ offer 0x35 ++
  [.quiet, .quiet,
   ⟨0, false, false, 0xfeedaa55, true, false⟩,
   ⟨0, false, true, 0xfeedaa55, false, false⟩, ⟨0, false, false, 0xfeedaa55, false, false⟩,
   ⟨0, false, true, 0xfeedaa55, false, false⟩, ⟨0, false, false, 0xfeedaa55, false, false⟩,
   ⟨0, false, true, 0xfeedaa55, false, false⟩, ⟨0, false, false, 0xfeedaa55, false, false⟩,
   ⟨0, false, true, 0xfeedaa55, false, false⟩, ⟨0, false, false, 0xfeedaa55, false, false⟩,
   ⟨0x3F, true, false, 0, false, false⟩]

/-- The dispatcher state at the start of both scenarios in the reference
runs: waiting for a command, nothing pending, all registers at reset. -/
def aReset : AState := ⟨.WAIT_COMMAND, 0, 0, false, 0, 0⟩

/-- Claim C4: sending `w`, `0x7a`, `0x15`, `0xca`, `0xaa`, `0x55` makes
the dispatcher pulse `startWrite` (at cycle 12 of the reference trace)
with `reg = 0x7a` and `dataWrite = 0x55aaca15` latched, and after the
transactor's `done` the host receives exactly one ack byte `+`; the
dispatcher then waits for the next command and `targetPower` is
untouched. -/
theorem c4_write_scenario :
    sendEvents aReset c4Inputs = [0x2B] ∧
    cyclesWhere (·.startWrite) aReset c4Inputs = [12] ∧
    (aRun aReset (c4Inputs.take 12)).reg = 0x7a ∧
    (aRun aReset (c4Inputs.take 12)).dataWrite = 0x55aaca15 ∧
    cyclesWhere (·.startRead) aReset c4Inputs = [] ∧
    (aRun aReset c4Inputs).fsm = .WAIT_COMMAND ∧
    (aRun aReset c4Inputs).targetPower = false := by
  decide

/-- Counterexample to claim C1 as stated: in the read scenario the
dispatcher transmits exactly the four data bytes `0x55`, `0xaa`, `0xed`,
`0xfe` and then accepts the next command byte without ever sending the
ack byte `+` (the `SEND_READ_VALUE` state returns straight to
`WAIT_COMMAND`, never visiting `SEND_ACK`); moreover during the
`startRead` pulse itself `reg` still holds its previous value, `0x35`
only being latched on the following cycle. -/
theorem c1_read_scenario_counterexample :
    sendEvents aReset c1Inputs = [0x55, 0xaa, 0xed, 0xfe] ∧
    sendEvents aReset c1Inputs ≠ [0x55, 0xaa, 0xed, 0xfe, 0x2B] ∧
    0x2B ∉ sendEvents aReset c1Inputs ∧
    cyclesWhere (·.startRead) aReset c1Inputs = [3] ∧
    (aRun aReset (c1Inputs.take 3)).reg = 0 ∧
    (aRun aReset (c1Inputs.take 4)).reg = 0x35 ∧
    outA (aRun aReset (c1Inputs.take 15)) ⟨0x3F, true, false, 0, false, false⟩ =
      { AOut.z with recvDone := true } ∧
    (aRun aReset c1Inputs).fsm = .DISPATCH := by
  decide

/-- Claim C1 (amended): sending `r` then `0x35` makes the dispatcher pulse
`startRead` (at cycle 3 of the reference trace), with `reg = 0x35` held
from the following cycle on (the cycle on which the transactor samples
it); once `done` fires with `dataRead = 0xfeedaa55` the dispatcher
transmits exactly the bytes `0x55`, `0xaa`, `0xed`, `0xfe`
(least-significant byte first) and returns to waiting for — and
accepting — the next command byte, sending no ack byte. -/
theorem c1_read_scenario :
    cyclesWhere (·.startRead) aReset c1Inputs = [3] ∧
    (aRun aReset (c1Inputs.take 4)).reg = 0x35 ∧
    sendEvents aReset c1Inputs = [0x55, 0xaa, 0xed, 0xfe] ∧
    0x2B ∉ sendEvents aReset c1Inputs ∧
    cyclesWhere (·.startWrite) aReset c1Inputs = [] ∧
    (aRun aReset (c1Inputs.take 15)).fsm = .WAIT_COMMAND ∧
    outA (aRun aReset (c1Inputs.take 15)) ⟨0x3F, true, false, 0, false, false⟩ =
      { AOut.z with recvDone := true } ∧
    (aRun aReset c1Inputs).targetPower = false := by
  decide

/-- Claim C9: any command byte other than `?`, `p`, `P`, `w`, `r` is
silently discarded: the dispatcher acknowledges consuming the byte on the
receive handshake, produces no send traffic and no transaction pulses on
either cycle, and its entire synchronous state — including `targetPower`,
`reg`, `dataWrite` — is exactly as before, back in `WAIT_COMMAND`. -/
theorem c9_unknown_byte_ignored (s : AState) (b : Nat) (i0 i1 : AIn)
    (hs : s.fsm = .WAIT_COMMAND) (hb : b < 256)
    (hmem : b ∉ ([0x3F, 0x70, 0x50, 0x77, 0x72] : List Nat))
    (h0 : i0.recvReady = true) (h1 : i1.recvData = b) :
    outA s i0 = { AOut.z with recvDone := true } ∧
    outA (stepA s i0) i1 = AOut.z ∧
    stepA (stepA s i0) i1 = s := by
  simp only [List.mem_cons, List.mem_singleton, not_or] at hmem
  obtain ⟨n1, n2, n3, n4, n5⟩ := hmem
  obtain ⟨f, op, vb, tp, r, dw⟩ := s
  simp only at hs
  subst hs
  have hb' : b % 256 = b := Nat.mod_eq_of_lt hb
  refine ⟨?_, ?_, ?_⟩
  · simp [outA, h0]
  · simp [stepA, outA, h0, h1, hb', n1, n2, n3, n4, n5]
  · simp [stepA, h0, h1, hb', n1, n2, n3, n4, n5]

/-- Witness for `c9_unknown_byte_ignored` at the concrete byte `0x41`. -/
theorem c9_unknown_byte_ignored_witness :
    outA aReset ⟨0x41, true, false, 0, false, false⟩ = { AOut.z with recvDone := true } ∧
    outA (stepA aReset ⟨0x41, true, false, 0, false, false⟩) ⟨0x41, false, false, 0, false, false⟩ = AOut.z ∧
    stepA (stepA aReset ⟨0x41, true, false, 0, false, false⟩) ⟨0x41, false, false, 0, false, false⟩ = aReset :=
  c9_unknown_byte_ignored aReset 0x41 ⟨0x41, true, false, 0, false, false⟩
    ⟨0x41, false, false, 0, false, false⟩ rfl (by decide) (by decide) rfl rfl

/-! ## The single-wire bit emitter (`SWIOBitWriter`)

Platform constants: `baseFrequency = 12` (12 MHz), `bitFrequency = 8`,
`delayDuration = 12000` cycles per millisecond.  `bitTimer` and
`delayTimer` are 5- and 14-bit signals, `bitPeriod` 6-bit, `delay` 5-bit. -/

/-- States of the `bit` FSM in `SWIOBitWriter.elaborate`. -/
inductive WFsm
  | RESET | WAIT_FIRST_DELAY | WAIT_SECOND_DELAY | IDLE | SETUP
  | WAIT_SPACE | WAIT_MARK | STOP | WAIT_STOP
  deriving DecidableEq, Repr

/-- Synchronous state of `SWIOBitWriter`: FSM state, the pin drive
signals `swio.o` and `swio.oe`, the registered `ready` output, the
millisecond delay counter pair and the 8 MHz tick accumulator pair. -/
structure WState where
  fsm : WFsm
  o : Bool
  oe : Bool
  ready : Bool
  delay : Nat
  delayTimer : Nat
  bitTimer : Nat
  bitPeriod : Nat
  deriving DecidableEq, Repr

/-- Per-cycle inputs of `SWIOBitWriter`: the `start`/`stop` requests and
the `bit` value to emit. -/
structure WIn where
  start : Bool
  stop : Bool
  bit : Bool
  deriving DecidableEq, Repr

/-- `finish` combinational output: pulses on the cycle where the mark (or
stop) period has drained. -/
def wFinish (s : WState) : Bool :=
  decide ((s.fsm = .WAIT_MARK ∨ s.fsm = .WAIT_STOP) ∧ s.bitPeriod = 0)

/-- Did the 8 MHz tick accumulator fire (count one bit-reference tick)
during a cycle spent in state `s`?  This is the condition
`bitPeriod != 0 and baseFrequency - bitTimer < bitFrequency`, the signed
comparison `12 - bitTimer < 8` being `12 < bitTimer + 8`. -/
def decFired (s : WState) : Bool :=
  decide (s.bitPeriod ≠ 0 ∧ 12 < s.bitTimer + 8)

/-- Synchronous step of `SWIOBitWriter`.  The free-running millisecond
and tick accumulator blocks are applied first; the FSM case, which comes
later in the `elaborate` body, overrides any same-cycle assignment to
the signals it drives. -/
def wStep (s : WState) (i : WIn) : WState :=
  let s1 :=
    if s.delay ≠ 0 then
      if s.delayTimer = 0 then { s with delayTimer := 11999, delay := s.delay - 1 }
      else { s with delayTimer := s.delayTimer - 1 }
    else s
  let s2 :=
    if s.bitPeriod ≠ 0 then
      if 12 < s.bitTimer + 8 then
        { s1 with bitTimer := (s.bitTimer + 20) % 32, bitPeriod := s.bitPeriod - 1 }
      else { s1 with bitTimer := (s.bitTimer + 8) % 32 }
    else s1
  match s.fsm with
  | .RESET => { s2 with o := true, oe := true, delay := 5, fsm := .WAIT_FIRST_DELAY }
  | .WAIT_FIRST_DELAY =>
      if s.delay = 0 then { s2 with o := false, delay := 20, fsm := .WAIT_SECOND_DELAY } else s2
  | .WAIT_SECOND_DELAY =>
      if s.delay = 0 then { s2 with oe := false, ready := true, fsm := .IDLE } else s2
  | .IDLE =>
      if i.start then { s2 with fsm := .SETUP }
      else if i.stop then { s2 with fsm := .STOP }
      else s2
  | .SETUP => { s2 with bitPeriod := if i.bit then 2 else 8, oe := true, fsm := .WAIT_SPACE }
  | .WAIT_SPACE =>
      if s.bitPeriod = 0 then { s2 with bitPeriod := 4, oe := false, fsm := .WAIT_MARK } else s2
  | .WAIT_MARK => if s.bitPeriod = 0 then { s2 with fsm := .IDLE } else s2
  | .STOP => { s2 with bitPeriod := 20, fsm := .WAIT_STOP }
  | .WAIT_STOP => if s.bitPeriod = 0 then { s2 with fsm := .IDLE } else s2

/-- Power-on reset state of `SWIOBitWriter`. -/
def wReset : WState := ⟨.RESET, false, false, false, 0, 11999, 0, 0⟩

/-- State after `n` cycles under the input stream `inp` (the input at
cycle `k` is `inp k`). -/
def wRunN (inp : Nat → WIn) (s : WState) : Nat → WState
  | 0 => s
  | n + 1 => wStep (wRunN inp s n) (inp n)

/-- The trajectory of the power-on attach handshake, as a function of the
cycle number: reset during cycle 0; line driven high during cycles
1–60001 (5 ms of 12000 cycles each, plus the transition cycle); line
driven low during cycles 60002–300002 (20 ms likewise); from cycle
300003 the line is released and `ready` is asserted. -/
def hsState (n : Nat) : WState :=
  if n = 0 then wReset
  else if n ≤ 60001 then
    ⟨.WAIT_FIRST_DELAY, true, true, false, 5 - (n - 1) / 12000, 11999 - (n - 1) % 12000, 0, 0⟩
  else if n ≤ 300002 then
    ⟨.WAIT_SECOND_DELAY, false, true, false, 20 - (n - 60002) / 12000, 11999 - (n - 60002) % 12000, 0, 0⟩
  else ⟨.IDLE, false, false, true, 0, 11999, 0, 0⟩

theorem wStep_W1_tick (o oe r : Bool) (d dt bt : Nat) (i : WIn)
    (hd : d ≠ 0) (hdt : dt ≠ 0) :
    wStep ⟨.WAIT_FIRST_DELAY, o, oe, r, d, dt, bt, 0⟩ i =
      ⟨.WAIT_FIRST_DELAY, o, oe, r, d, dt - 1, bt, 0⟩ := by
  simp [wStep, hd, hdt]

theorem wStep_W1_borrow (o oe r : Bool) (d bt : Nat) (i : WIn) (hd : d ≠ 0) :
    wStep ⟨.WAIT_FIRST_DELAY, o, oe, r, d, 0, bt, 0⟩ i =
      ⟨.WAIT_FIRST_DELAY, o, oe, r, d - 1, 11999, bt, 0⟩ := by
  simp [wStep, hd]

theorem wStep_W1_fire (o oe r : Bool) (dt bt : Nat) (i : WIn) :
    wStep ⟨.WAIT_FIRST_DELAY, o, oe, r, 0, dt, bt, 0⟩ i =
      ⟨.WAIT_SECOND_DELAY, false, oe, r, 20, dt, bt, 0⟩ := by
  simp [wStep]

theorem wStep_W2_tick (o oe r : Bool) (d dt bt : Nat) (i : WIn)
    (hd : d ≠ 0) (hdt : dt ≠ 0) :
    wStep ⟨.WAIT_SECOND_DELAY, o, oe, r, d, dt, bt, 0⟩ i =
      ⟨.WAIT_SECOND_DELAY, o, oe, r, d, dt - 1, bt, 0⟩ := by
  simp [wStep, hd, hdt]

theorem wStep_W2_borrow (o oe r : Bool) (d bt : Nat) (i : WIn) (hd : d ≠ 0) :
    wStep ⟨.WAIT_SECOND_DELAY, o, oe, r, d, 0, bt, 0⟩ i =
      ⟨.WAIT_SECOND_DELAY, o, oe, r, d - 1, 11999, bt, 0⟩ := by
  simp [wStep, hd]

theorem wStep_W2_fire (o oe r : Bool) (dt bt : Nat) (i : WIn) :
    wStep ⟨.WAIT_SECOND_DELAY, o, oe, r, 0, dt, bt, 0⟩ i =
      ⟨.IDLE, o, false, true, 0, dt, bt, 0⟩ := by
  simp [wStep]

theorem hs_traj (inp : Nat → WIn) :
    ∀ n, n ≤ 300003 → wRunN inp wReset n = hsState n := by
  intro n
  induction n with
  | zero => intro _; rfl
  | succ n ih =>
      intro hn
      have ihn := ih (by omega)
      rw [wRunN, ihn]
      by_cases h0 : n = 0
      · subst h0; rfl
      by_cases h1 : n ≤ 60000
      · have e1 : hsState n =
            ⟨.WAIT_FIRST_DELAY, true, true, false, 5 - (n - 1) / 12000, 11999 - (n - 1) % 12000, 0, 0⟩ := by
          simp only [hsState]
          rw [if_neg h0, if_pos (by omega)]
        have e2 : hsState (n + 1) =
            ⟨.WAIT_FIRST_DELAY, true, true, false, 5 - n / 12000, 11999 - n % 12000, 0, 0⟩ := by
          simp only [hsState]
          rw [if_neg (by omega), if_pos (by omega)]
          simp
        rw [e1, e2]
        have hd : 5 - (n - 1) / 12000 ≠ 0 := by omega
        by_cases ht : 11999 - (n - 1) % 12000 = 0
        · rewrite [ht, wStep_W1_borrow _ _ _ _ _ _ hd]
          simp only [WState.mk.injEq]
          and_intros <;> first | omega | trivial
        · rewrite [wStep_W1_tick _ _ _ _ _ _ _ hd ht]
          simp only [WState.mk.injEq]
          and_intros <;> first | omega | trivial
      by_cases h2 : n = 60001
      · subst h2
        have e1 : hsState 60001 = ⟨.WAIT_FIRST_DELAY, true, true, false, 0, 11999, 0, 0⟩ := by
          simp only [hsState]
          rw [if_neg (by omega), if_pos (by omega)]
        have e2 : hsState 60002 = ⟨.WAIT_SECOND_DELAY, false, true, false, 20, 11999, 0, 0⟩ := by
          simp only [hsState]
          rw [if_neg (by omega), if_neg (by omega), if_pos (by omega)]
        rw [e1, e2, wStep_W1_fire]
      by_cases h3 : n ≤ 300001
      · have e1 : hsState n =
            ⟨.WAIT_SECOND_DELAY, false, true, false, 20 - (n - 60002) / 12000, 11999 - (n - 60002) % 12000, 0, 0⟩ := by
          simp only [hsState]
          rw [if_neg h0, if_neg (by omega), if_pos (by omega)]
        have e2 : hsState (n + 1) =
            ⟨.WAIT_SECOND_DELAY, false, true, false, 20 - (n - 60001) / 12000, 11999 - (n - 60001) % 12000, 0, 0⟩ := by
          simp only [hsState]
          rw [if_neg (by omega), if_neg (by omega), if_pos (by omega)]
          have h5 : n + 1 - 60002 = n - 60001 := by omega
          rw [h5]
        rw [e1, e2]
        have hd : 20 - (n - 60002) / 12000 ≠ 0 := by omega
        by_cases ht : 11999 - (n - 60002) % 12000 = 0
        · rewrite [ht, wStep_W2_borrow _ _ _ _ _ _ hd]
          simp only [WState.mk.injEq]
          and_intros <;> first | omega | trivial
        · rewrite [wStep_W2_tick _ _ _ _ _ _ _ hd ht]
          simp only [WState.mk.injEq]
          and_intros <;> first | omega | trivial
      · have h4 : n = 300002 := by omega
        subst h4
        have e1 : hsState 300002 = ⟨.WAIT_SECOND_DELAY, false, true, false, 0, 11999, 0, 0⟩ := by
          simp only [hsState]
          rw [if_neg (by omega), if_neg (by omega), if_pos (by omega)]
        have e2 : hsState 300003 = ⟨.IDLE, false, false, true, 0, 11999, 0, 0⟩ := by
          simp only [hsState]
          rw [if_neg (by omega), if_neg (by omega), if_neg (by omega)]
        rw [e1, e2, wStep_W2_fire]

/-- `ready`, once registered, is never cleared by any step. -/
theorem wStep_ready_mono (s : WState) (i : WIn) (h : s.ready = true) :
    (wStep s i).ready = true := by
  obtain ⟨f, o, oe, r, d, dt, bt, bp⟩ := s
  subst h
  cases f <;> (rw [wStep] <;> dsimp only <;> split_ifs <;> rfl)

theorem wRunN_add (inp : Nat → WIn) (s : WState) (a m : Nat) :
    wRunN inp s (a + m) = wRunN (fun k => inp (a + k)) (wRunN inp s a) m := by
  induction m with
  | zero => rfl
  | succ m ih => rw [← Nat.add_assoc, wRunN, wRunN, ih]

theorem wRunN_ready_mono (inp : Nat → WIn) (s : WState) (n : Nat)
    (h : s.ready = true) : (wRunN inp s n).ready = true := by
  induction n with
  | zero => exact h
  | succ n ih => exact wStep_ready_mono _ _ ih

/-- Claim C6 (emitter half and dispatcher half).  Emitter: for every input
stream, from power-on reset the line is driven high during cycles
1–60001 (5 ms at 12000 cycles per millisecond, plus the single
transition cycle), then driven low during cycles 60002–300002 (20 ms
likewise), and from cycle 300003 on the line is released (`oe` low) with
`ready` asserted, and `ready` remains asserted at every later cycle.
Dispatcher: in the `INIT` state the greeting pulse fires exactly on a
cycle where both `sendReady` and the downstream `ready` are high, in
which case the byte sent is `!` and the FSM moves on to `WAIT_COMMAND`;
no other state ever returns to `INIT`, so the greeting is emitted exactly
once. -/
theorem c6_attach_handshake_and_greeting :
    (∀ (inp : Nat → WIn) (n : Nat), 1 ≤ n → n ≤ 60001 →
      (wRunN inp wReset n).o = true ∧ (wRunN inp wReset n).oe = true ∧
      (wRunN inp wReset n).ready = false) ∧
    (∀ (inp : Nat → WIn) (n : Nat), 60002 ≤ n → n ≤ 300002 →
      (wRunN inp wReset n).o = false ∧ (wRunN inp wReset n).oe = true ∧
      (wRunN inp wReset n).ready = false) ∧
    (∀ inp : Nat → WIn, (wRunN inp wReset 300003).oe = false ∧
      (wRunN inp wReset 300003).ready = true ∧ (wRunN inp wReset 300003).fsm = .IDLE) ∧
    (∀ (inp : Nat → WIn) (n : Nat), 300003 ≤ n → (wRunN inp wReset n).ready = true) ∧
    (∀ (s : AState) (i : AIn), s.fsm = .INIT →
      ((outA s i).sendStart = (i.sendReady && i.ready)) ∧
      ((i.sendReady && i.ready) = true →
        outA s i = { AOut.z with sendData := 0x21, sendStart := true }) ∧
      stepA s i = (if i.sendReady && i.ready then { s with fsm := .WAIT_COMMAND } else s)) ∧
    (∀ (s : AState) (i : AIn), s.fsm ≠ .INIT → (stepA s i).fsm ≠ .INIT) := by
  have h3 : ∀ inp : Nat → WIn, wRunN inp wReset 300003 = ⟨.IDLE, false, false, true, 0, 11999, 0, 0⟩ := by
    intro inp
    rw [hs_traj inp 300003 (by omega)]
    simp only [hsState]
    rw [if_neg (by omega), if_neg (by omega), if_neg (by omega)]
  refine ⟨?_, ?_, ?_, ?_, ?_, ?_⟩
  · intro inp n h1 h2
    rw [hs_traj inp n (by omega)]
    simp only [hsState]
    rw [if_neg (by omega), if_pos (by omega)]
    exact ⟨rfl, rfl, rfl⟩
  · intro inp n h1 h2
    rw [hs_traj inp n (by omega)]
    simp only [hsState]
    rw [if_neg (by omega), if_neg (by omega), if_pos (by omega)]
    exact ⟨rfl, rfl, rfl⟩
  · intro inp
    rw [h3 inp]
    exact ⟨rfl, rfl, rfl⟩
  · intro inp n hn
    have hsplit : n = 300003 + (n - 300003) := by omega
    rw [hsplit, wRunN_add]
    exact wRunN_ready_mono _ _ _ (by rw [h3 inp])
  · intro s i hs
    obtain ⟨f, op, vb, tp, r, dw⟩ := s
    simp only at hs
    subst hs
    refine ⟨?_, ?_, ?_⟩
    · cases hc : i.sendReady && i.ready <;> simp [outA, hc, AOut.z]
    · intro hc; simp [outA, hc]
    · rfl
  · intro s i hs
    obtain ⟨f, op, vb, tp, r, dw⟩ := s
    cases f <;> simp_all [stepA] <;> split_ifs <;> simp_all

/-- Witness for `c6_attach_handshake_and_greeting` at concrete cycles and
a concrete greeting cycle. -/
theorem c6_attach_handshake_and_greeting_witness :
    ((wRunN (fun _ => ⟨false, false, false⟩) wReset 1).o = true ∧
      (wRunN (fun _ => ⟨false, false, false⟩) wReset 1).oe = true ∧
      (wRunN (fun _ => ⟨false, false, false⟩) wReset 1).ready = false) ∧
    ((wRunN (fun _ => ⟨false, false, false⟩) wReset 60002).o = false ∧
      (wRunN (fun _ => ⟨false, false, false⟩) wReset 60002).oe = true ∧
      (wRunN (fun _ => ⟨false, false, false⟩) wReset 60002).ready = false) ∧
    (wRunN (fun _ => ⟨false, false, false⟩) wReset 300004).ready = true ∧
    outA ⟨.INIT, 0, 0, false, 0, 0⟩ ⟨0, false, true, 0, false, true⟩ =
      { AOut.z with sendData := 0x21, sendStart := true } ∧
    (stepA ⟨.WAIT_COMMAND, 0, 0, false, 0, 0⟩ ⟨0, false, true, 0, false, true⟩).fsm ≠ .INIT := by
  refine ⟨c6_attach_handshake_and_greeting.1 _ 1 (by omega) (by omega),
    c6_attach_handshake_and_greeting.2.1 _ 60002 (by omega) (by omega),
    c6_attach_handshake_and_greeting.2.2.2.1 _ 300004 (by omega),
    (c6_attach_handshake_and_greeting.2.2.2.2.1 _ _ rfl).2.1 (by rfl),
    c6_attach_handshake_and_greeting.2.2.2.2.2 _ _ (by simp)⟩

/-- The post-handshake FSM states: every state reachable once `ready` has
been asserted. -/
def wPost (f : WFsm) : Prop :=
  f = .IDLE ∨ f = .SETUP ∨ f = .WAIT_SPACE ∨ f = .WAIT_MARK ∨ f = .STOP ∨ f = .WAIT_STOP

instance (f : WFsm) : Decidable (wPost f) := by unfold wPost; infer_instance

/-- Invariant for claim C10: the only state that can hand `ready` on had
`o` already low, and once `ready` is set the FSM sits in the
post-handshake states with `o` permanently low. -/
def WInv (s : WState) : Prop :=
  (s.fsm = .WAIT_SECOND_DELAY → s.o = false) ∧
  (s.ready = true → s.o = false ∧ wPost s.fsm)

theorem wStep_WInv (s : WState) (i : WIn) (h : WInv s) : WInv (wStep s i) := by
  obtain ⟨f, o, oe, r, d, dt, bt, bp⟩ := s
  obtain ⟨h1, h2⟩ := h
  cases f <;>
    (rw [wStep] <;> dsimp only <;> split_ifs <;>
      simp_all [WInv, wPost])

/-- Claim C10: from any state satisfying the invariant in which `ready`
is asserted — in particular any state reached after the attach handshake
completes — the emitter never drives the line high again: for every
input stream and horizon, `swio.o` is still low (so the line is always
either actively driven low, when `oe` is set, or released to the
pull-up) and `ready` is still asserted.  The invariant holds at power-on
reset and is preserved by every step. -/
theorem c10_never_drives_high (s : WState) (inp : Nat → WIn) (n : Nat)
    (hinv : WInv s) (hr : s.ready = true) :
    (wRunN inp s n).o = false ∧ (wRunN inp s n).ready = true ∧ WInv (wRunN inp s n) := by
  induction n with
  | zero => exact ⟨(hinv.2 hr).1, hr, hinv⟩
  | succ n ih =>
      obtain ⟨ho, hr', hi⟩ := ih
      rw [wRunN]
      exact ⟨((wStep_WInv _ _ hi).2 (wStep_ready_mono _ _ hr')).1,
        wStep_ready_mono _ _ hr', wStep_WInv _ _ hi⟩

/-- Witness for `c10_never_drives_high` at the post-handshake idle state
and a stream that immediately requests a `0` bit. -/
theorem c10_never_drives_high_witness :
    (wRunN (fun n => ⟨decide (n = 0), false, false⟩) ⟨.IDLE, false, false, true, 0, 11999, 0, 0⟩ 25).o = false ∧
    (wRunN (fun n => ⟨decide (n = 0), false, false⟩) ⟨.IDLE, false, false, true, 0, 11999, 0, 0⟩ 25).ready = true ∧
    WInv (wRunN (fun n => ⟨decide (n = 0), false, false⟩) ⟨.IDLE, false, false, true, 0, 11999, 0, 0⟩ 25) :=
  c10_never_drives_high ⟨.IDLE, false, false, true, 0, 11999, 0, 0⟩
    (fun n => ⟨decide (n = 0), false, false⟩) 25 (by constructor <;> simp [wPost]) rfl

/-! ## Bit-level timing of the emitter

`wBitInput b` requests a single bit `b` on cycle 0 (and keeps presenting
`b` on the `bit` input, which the transactor holds registered while a bit
is in flight); `wStopInput` requests the stop marker on cycle 0.
`wIdleAt t` is the post-handshake idle state with the tick accumulator at
phase `t`.  A duration in 8 MHz-equivalent ticks is the number of cycles
on which the accumulator fired (`decFired`). -/

def wBitInput (b : Bool) : Nat → WIn := fun n => ⟨decide (n = 0), false, b⟩

def wStopInput : Nat → WIn := fun n => ⟨false, decide (n = 0), false⟩

def wIdleAt (t : Nat) : WState := ⟨.IDLE, false, false, true, 0, 11999, t, 0⟩

/-- States occupied during cycles `0`, `1`, … under the stream `inp`. -/
def wTraj (inp : Nat → WIn) (s : WState) : Nat → List WState
  | 0 => []
  | n + 1 => s :: wTraj (fun k => inp (k + 1)) (wStep s (inp 0)) n

/-- The prefix of a trajectory up to and including the first cycle on
which `finish` pulses. -/
def segOf (tr : List WState) : List WState :=
  tr.take ((tr.takeWhile fun s => ! wFinish s).length + 1)

def bitSeg (t : Nat) (b : Bool) : List WState :=
  segOf (wTraj (wBitInput b) (wIdleAt t) 30)

def stopSeg (t : Nat) : List WState :=
  segOf (wTraj wStopInput (wIdleAt t) 40)

/-- Number of 8 MHz-equivalent ticks spent in cycles satisfying `p`. -/
def ticksWhile (p : WState → Bool) (l : List WState) : Nat :=
  (l.filter fun s => p s && decFired s).length

/-- The `oe` waveform of a bit consists of some released cycles, then one
contiguous driven block, then released cycles only: space then mark. -/
def oeShape (l : List WState) : Bool :=
  let l1 := (l.map fun s => s.oe).dropWhile fun x => x = false
  decide (l1 ≠ []) && ((l1.dropWhile fun x => x = true).all fun x => x = false)

/-! ## The register transactor (`SWIO`, FSM `swio`) -/

/-- States of the `swio` FSM in `SWIO.elaborate`. -/
inductive TFsm
  | IDLE | START | WAIT_START | SEND_REGISTER | WAIT_SEND_REGISTER
  | WAIT_READ_WRITE_BIT | READ_VALUE | WAIT_READ_VALUE
  | WRITE_VALUE | WAIT_WRITE_VALUE | STOP
  deriving DecidableEq, Repr

/-- Synchronous state of the transactor: FSM state, `operation` (the
`Operation` IntEnum: 1 = read, 2 = write, 0 at reset), the 32-bit shift
register `data`, the 6-bit `bitCounter`, the registered `bitWriter.bit`
input (driven by this FSM's `m.d.sync` assignments), and the registered
`dataRead` output. -/
structure TrState where
  fsm : TFsm
  operation : Nat
  data : Nat
  bitCounter : Nat
  writerBit : Bool
  dataRead : Nat
  deriving DecidableEq, Repr

/-- Per-cycle inputs of the transactor FSM: the request pulses and bus
ports of the `SWIO` module, plus the combinational `finish`/`bit`
outputs of the bit writer and bit reader it waits on. -/
structure TrIn where
  startRead : Bool
  startWrite : Bool
  reg : Nat
  dataWrite : Nat
  wFin : Bool
  rFin : Bool
  rBit : Bool
  deriving DecidableEq, Repr

/-- Combinational outputs of the transactor FSM.  `trigRead` models the
assignment to `bitWriter.triggerRead` in the `READ_VALUE` state — a
signal the bit writer does not define, so it drives nothing. -/
structure TrOut where
  wStart : Bool
  wStop : Bool
  rStart : Bool
  trigRead : Bool
  done : Bool
  deriving DecidableEq, Repr

/-- The all-zero transactor output. -/
def TrOut.z : TrOut := ⟨false, false, false, false, false⟩

def trOut (s : TrState) (i : TrIn) : TrOut :=
  match s.fsm with
  | .IDLE => TrOut.z
  | .START => { TrOut.z with wStart := true }
  | .WAIT_START => TrOut.z
  | .SEND_REGISTER => { TrOut.z with wStart := true }
  | .WAIT_SEND_REGISTER => TrOut.z
  | .WAIT_READ_WRITE_BIT => TrOut.z
  | .READ_VALUE =>
      if s.bitCounter = 32 then { TrOut.z with wStop := true }
      else { TrOut.z with rStart := true, trigRead := true }
  | .WAIT_READ_VALUE => TrOut.z
  | .WRITE_VALUE =>
      if s.bitCounter = 32 then { TrOut.z with wStop := true }
      else { TrOut.z with wStart := true }
  | .WAIT_WRITE_VALUE => TrOut.z
  | .STOP => if i.wFin then { TrOut.z with done := true } else TrOut.z

def trStep (s : TrState) (i : TrIn) : TrState :=
  match s.fsm with
  | .IDLE =>
      if i.startRead then { s with operation := 1, fsm := .START }
      else if i.startWrite then { s with operation := 2, fsm := .START }
      else s
  | .START =>
      { s with writerBit := true, bitCounter := 0,
               data := revBits 7 (i.reg % 128), fsm := .WAIT_START }
  | .WAIT_START => if i.wFin then { s with fsm := .SEND_REGISTER } else s
  | .SEND_REGISTER =>
      if s.bitCounter = 7 then
        { s with writerBit := decide (s.operation = 2), fsm := .WAIT_READ_WRITE_BIT }
      else
        { s with writerBit := decide (s.data % 2 = 1), data := s.data / 2,
                 fsm := .WAIT_SEND_REGISTER }
  | .WAIT_SEND_REGISTER =>
      if i.wFin then { s with bitCounter := (s.bitCounter + 1) % 64, fsm := .SEND_REGISTER }
      else s
  | .WAIT_READ_WRITE_BIT =>
      if i.wFin then
        if s.operation = 1 then { s with bitCounter := 0, fsm := .READ_VALUE }
        else if s.operation = 2 then
          { s with bitCounter := 0, data := revBits 32 (i.dataWrite % 2 ^ 32), fsm := .WRITE_VALUE }
        else { s with bitCounter := 0 }
      else s
  | .READ_VALUE =>
      if s.bitCounter = 32 then { s with dataRead := s.data, fsm := .STOP }
      else { s with fsm := .WAIT_READ_VALUE }
  | .WAIT_READ_VALUE =>
      if i.rFin then
        { s with data := 2 * s.data % 2 ^ 32 + (if i.rBit then 1 else 0),
                 bitCounter := (s.bitCounter + 1) % 64, fsm := .READ_VALUE }
      else s
  | .WRITE_VALUE =>
      if s.bitCounter = 32 then { s with fsm := .STOP }
      else
        { s with writerBit := decide (s.data % 2 = 1), data := s.data / 2,
                 fsm := .WAIT_WRITE_VALUE }
  | .WAIT_WRITE_VALUE =>
      if i.wFin then { s with bitCounter := (s.bitCounter + 1) % 64, fsm := .WRITE_VALUE }
      else s
  | .STOP => if i.wFin then { s with fsm := .IDLE } else s

/-- Claim C5: for every accumulator phase, an emitted `1` bit drives the
line (low, since `o` stays 0) for exactly 2 ticks and then releases it
for exactly 4 ticks before `finish`; a `0` bit drives for exactly 8 ticks
then releases for 4; the waveform is one contiguous driven block (space
then mark); the stop marker keeps the line released — never driven — for
exactly 20 ticks; and the start marker is emitted with the `1` encoding:
launching a transaction from `IDLE` loads the writer's `bit` register
with 1 and pulses its `start`. -/
theorem c5_bit_timing :
    (∀ t : Fin 32, ∀ b : Bool,
      (bitSeg t b).any wFinish = true ∧
      ticksWhile (fun s => s.oe) (bitSeg t b) = (if b then 2 else 8) ∧
      ticksWhile (fun s => ! s.oe) (bitSeg t b) = 4 ∧
      oeShape (bitSeg t b) = true ∧
      (bitSeg t b).all (fun s => ! s.o) = true ∧
      ((bitSeg t b).filter wFinish).length = 1 ∧
      (wRunN (wBitInput b) (wIdleAt t) 30).fsm = .IDLE) ∧
    (∀ t : Fin 32,
      (stopSeg t).any wFinish = true ∧
      ticksWhile (fun _ => true) (stopSeg t) = 20 ∧
      (stopSeg t).all (fun s => ! s.o && ! s.oe) = true ∧
      ((stopSeg t).filter wFinish).length = 1 ∧
      (wRunN wStopInput (wIdleAt t) 40).fsm = .IDLE) ∧
    (∀ (s : TrState) (i0 i1 : TrIn), s.fsm = .IDLE →
      (i0.startRead = true ∨ i0.startWrite = true) →
      (trStep s i0).fsm = .START ∧ (trOut (trStep s i0) i1).wStart = true ∧
      (trStep (trStep s i0) i1).writerBit = true) := by
  refine ⟨by decide, by decide, ?_⟩
  intro s i0 i1 hs hp
  obtain ⟨f, op, x, k, wb, dr⟩ := s
  simp only at hs
  subst hs
  rcases hp with hp | hp
  · simp [trStep, trOut, hp]
  · by_cases hr : i0.startRead <;> simp [trStep, trOut, hp, hr]

/-- Witness for `c5_bit_timing`, launching a write from idle. -/
theorem c5_bit_timing_witness :
    (trStep ⟨.IDLE, 0, 0, 0, false, 0⟩ ⟨false, true, 5, 7, false, false, false⟩).fsm = .START ∧
    (trOut (trStep ⟨.IDLE, 0, 0, 0, false, 0⟩ ⟨false, true, 5, 7, false, false, false⟩)
      ⟨false, false, 5, 7, false, false, false⟩).wStart = true ∧
    (trStep (trStep ⟨.IDLE, 0, 0, 0, false, 0⟩ ⟨false, true, 5, 7, false, false, false⟩)
      ⟨false, false, 5, 7, false, false, false⟩).writerBit = true :=
  c5_bit_timing.2.2 ⟨.IDLE, 0, 0, 0, false, 0⟩ ⟨false, true, 5, 7, false, false, false⟩
    ⟨false, false, 5, 7, false, false, false⟩ rfl (Or.inr rfl)

/-! ## The fractional tick accumulator, parameterized by clock rate

The delay blocks in `SWIOBitWriter.elaborate` and
`SWIOBitReader.elaborate` derive 8 MHz-equivalent ticks from the system
clock: every cycle `bitTimer` gains `bitFrequency = 8`, and when
`baseFrequency - bitTimer < bitFrequency` (a signed comparison, i.e.
`baseFrequency < bitTimer + 8`) the block instead assigns
`bitTimer - baseFrequency` (the `+ 8` of that cycle is discarded, and
the subtraction wraps modulo the signal width) and counts one tick.
`baseFrequency` is `int(platform.default_clk_frequency // 1e6)` and
`bitTimer` is `Signal(range(baseFrequency + bitFrequency))`, whose width
is the bit length of `baseFrequency + 7`. -/

/-- Number of bits needed to hold `n` (fuel-based binary length). -/
def bitWidthAux : Nat → Nat → Nat
  | 0, _ => 0
  | fuel + 1, n => if n = 0 then 0 else bitWidthAux fuel (n / 2) + 1

/-- `Signal(range(m))` has width `bitWidthOf (m - 1)`. -/
def bitWidthOf (n : Nat) : Nat := bitWidthAux n n

/-- The modulus of the `bitTimer` signal for a given `baseFrequency`:
two to the width of `Signal(range(baseFrequency + 8))`. -/
def accMod (base : Nat) : Nat := 2 ^ bitWidthOf (base + 7)

/-- One cycle of the tick accumulator: next timer value and whether a
tick fired. -/
def accStep (base t : Nat) : Nat × Bool :=
  if base < t + 8 then ((t + accMod base - base) % accMod base, true)
  else ((t + 8) % accMod base, false)

/-- Timer value and cumulative tick count after `n` cycles from timer
state `t` (the signal resets to 0). -/
def accRunFrom (base t : Nat) : Nat → Nat × Nat
  | 0 => (t, 0)
  | n + 1 =>
      let p := accRunFrom base t n
      let q := accStep base p.1
      (q.1, p.2 + if q.2 then 1 else 0)

theorem accRunFrom_add (base t m n : Nat) :
    accRunFrom base t (m + n) =
      ((accRunFrom base (accRunFrom base t m).1 n).1,
       (accRunFrom base t m).2 + (accRunFrom base (accRunFrom base t m).1 n).2) := by
  induction n with
  | zero => rfl
  | succ n ih =>
      rw [← Nat.add_assoc, accRunFrom, accRunFrom, ih]
      dsimp only
      rw [Nat.add_assoc]

set_option maxRecDepth 4000 in
/-- Counterexample to claim C8 as stated: the accumulator scheme is not
exact for every system clock rate.  At a 13 MHz clock (`base = 13`), 286
cycles contain exactly `8 * 286 / 13 = 176` true 8 MHz ticks, but the
accumulator fires 208 times — a cumulative drift of 32 ticks that grows
linearly, far beyond any one-tick rounding bound. -/
theorem c8_drift_counterexample :
    (accRunFrom 13 0 286).2 = 208 ∧ 8 * 286 = 13 * 176 ∧
    ¬ 13 * (accRunFrom 13 0 286).2 ≤ 8 * 286 + 13 := by
  decide

/-- Claim C8 (amended): at the 12 MHz system clock the design is
instantiated with (`baseFrequency = 12`, giving a 5-bit timer, modulus
32), the accumulator is exact: starting from reset it returns to timer
state 0 every 6 cycles having fired exactly 4 ticks, so over `6 * k`
cycles it fires exactly `4 * k` ticks — the exact `8 / 12` ratio with no
cumulative drift.  The per-cycle dynamics coincide with the accumulator
block embedded in `wStep`. -/
theorem c8_exact_at_12mhz :
    (∀ k : Nat, (accRunFrom 12 0 (6 * k)).1 = 0 ∧ (accRunFrom 12 0 (6 * k)).2 = 4 * k) ∧
    (∀ t : Nat, accStep 12 t =
      (if 12 < t + 8 then ((t + 20) % 32, true) else ((t + 8) % 32, false))) := by
  constructor
  · intro k
    induction k with
    | zero => exact ⟨rfl, rfl⟩
    | succ k ih =>
        have h6 : 6 * (k + 1) = 6 * k + 6 := by ring
        rw [h6, accRunFrom_add, ih.1, ih.2]
        have hstep : accRunFrom 12 0 6 = (0, 4) := by decide
        rw [hstep]
        exact ⟨rfl, by omega⟩
  · intro t
    have hm : accMod 12 = 32 := by rfl
    rw [accStep, hm]
    have h20 : t + 32 - 12 = t + 20 := by omega
    rw [h20]

/-! ## The single-wire bit decoder (`SWIOBitReader`) -/

/-- States of the `bit` FSM in `SWIOBitReader.elaborate`. -/
inductive RFsm
  | IDLE | SETUP | CAPTURE | FINISH | WAIT_MARK
  deriving DecidableEq, Repr

/-- Synchronous state of `SWIOBitReader`: FSM state, the registered `bit`
and `error` outputs, the low-pulse tick accumulator pair (`bitTimer`,
`bitPeriod`, the latter 7-bit) and the mark-delay accumulator pair
(`delayTimer`, `delayPeriod`). -/
structure RState where
  fsm : RFsm
  bit : Bool
  error : Bool
  bitTimer : Nat
  bitPeriod : Nat
  delayTimer : Nat
  delayPeriod : Nat
  deriving DecidableEq, Repr

/-- Per-cycle inputs of `SWIOBitReader`: the `start` request and the
sampled line level `swio.i`. -/
structure RIn where
  start : Bool
  line : Bool
  deriving DecidableEq, Repr

/-- `finish` combinational output of the bit decoder. -/
def rFinish (s : RState) : Bool := decide (s.fsm = .WAIT_MARK ∧ s.delayPeriod = 0)

/-- Synchronous step of `SWIOBitReader`.  The low-pulse counter runs in
every state while the line is low; the mark-delay counter runs while
`delayPeriod` is nonzero; the FSM case, which comes later in the
`elaborate` body, overrides same-cycle assignments. -/
def rStep (s : RState) (i : RIn) : RState :=
  let s1 :=
    if i.line = false then
      if 12 < s.bitTimer + 8 then
        { s with bitTimer := (s.bitTimer + 20) % 32, bitPeriod := (s.bitPeriod + 1) % 128 }
      else { s with bitTimer := (s.bitTimer + 8) % 32 }
    else s
  let s2 :=
    if s.delayPeriod ≠ 0 then
      if 12 < s.delayTimer + 8 then
        { s1 with delayTimer := (s.delayTimer + 20) % 32, delayPeriod := s.delayPeriod - 1 }
      else { s1 with delayTimer := (s.delayTimer + 8) % 32 }
    else s1
  match s.fsm with
  | .IDLE =>
      if i.start then
        if i.line then { s2 with bitPeriod := 0, error := false, fsm := .SETUP }
        else { s2 with bitPeriod := 0, error := false, fsm := .CAPTURE }
      else s2
  | .SETUP => if i.line = false then { s2 with fsm := .CAPTURE } else s2
  | .CAPTURE =>
      if i.line = false ∧ s.bitPeriod = 96 then
        { s2 with error := true, delayPeriod := 4, fsm := .FINISH }
      else if i.line then { s2 with delayPeriod := 4, fsm := .FINISH }
      else s2
  | .FINISH => { s2 with bit := decide (s.bitPeriod ≤ 4), fsm := .WAIT_MARK }
  | .WAIT_MARK => if s.delayPeriod = 0 then { s2 with fsm := .IDLE } else s2

/-- Power-on reset state of `SWIOBitReader`. -/
def rReset : RState := ⟨.IDLE, false, false, 0, 0, 0, 0⟩

/-- State after `n` cycles under the input stream `inp`. -/
def rRunN (inp : Nat → RIn) (s : RState) : Nat → RState
  | 0 => s
  | n + 1 => rStep (rRunN inp s n) (inp n)

/-- Stuck-line input stream: a read requested on cycle 0 with the line
low and never returning high. -/
def rStuckIn : Nat → RIn := fun n => ⟨decide (n = 0), false⟩

/-! ## The composed `SWIO` module

Transactor, bit emitter and bit decoder wired together as in
`SWIO.elaborate`: the transactor's combinational `start`/`stop` pulses
drive the emitter, its `triggerRead` assignment dangles (the emitter has
no such port), the decoder's `start` comes from the transactor, and both
emitter and decoder see the pad level — the emitter's driven value when
`oe` is set, the externally driven level otherwise. -/

structure CState where
  tr : TrState
  bw : WState
  br : RState
  deriving DecidableEq, Repr

structure CIn where
  startRead : Bool
  startWrite : Bool
  reg : Nat
  dataWrite : Nat
  ext : Bool
  deriving DecidableEq, Repr

/-- The level on the single-wire pad: the emitter's output while it
drives, the external (pull-up or target) level otherwise. -/
def lineLevel (c : CState) (i : CIn) : Bool := if c.bw.oe then c.bw.o else i.ext

/-- The transactor-side inputs for the current cycle. -/
def trInOf (c : CState) (i : CIn) : TrIn :=
  ⟨i.startRead, i.startWrite, i.reg, i.dataWrite, wFinish c.bw, rFinish c.br, c.br.bit⟩

def compStep (c : CState) (i : CIn) : CState :=
  let o := trOut c.tr (trInOf c i)
  ⟨trStep c.tr (trInOf c i),
   wStep c.bw ⟨o.wStart, o.wStop, c.tr.writerBit⟩,
   rStep c.br ⟨o.rStart, lineLevel c i⟩⟩

/-- The module-level outputs of `SWIO`: `done` (combinational from the
transactor), `ready` (wired from the emitter), the registered
`dataRead`, and the pad drive signals. -/
structure COut where
  done : Bool
  ready : Bool
  dataRead : Nat
  oe : Bool
  o : Bool
  deriving DecidableEq, Repr

def compOut (c : CState) (i : CIn) : COut :=
  ⟨(trOut c.tr (trInOf c i)).done, c.bw.ready, c.tr.dataRead, c.bw.oe, c.bw.o⟩

/-- Replace the decoder's `error` flag. -/
def setRdErr (c : CState) (e : Bool) : CState := ⟨c.tr, c.bw, { c.br with error := e }⟩

/-- Forget the decoder's `error` flag. -/
def eraseErr (c : CState) : CState := ⟨c.tr, c.bw, { c.br with error := false }⟩

set_option maxHeartbeats 1600000 in
/-- For every decoder state and input, the next state with the error
flag forgotten does not depend on the current error flag. -/
theorem rStep_error_indep (rf : RFsm) (rb : Bool) (rbt rbp rdt rdp : Nat) (i : RIn) (e1 e2 : Bool) :
    { rStep ⟨rf, rb, e1, rbt, rbp, rdt, rdp⟩ i with error := false } =
    { rStep ⟨rf, rb, e2, rbt, rbp, rdt, rdp⟩ i with error := false } := by
  cases rf <;> (dsimp only [rStep]; split_ifs <;> rfl)

set_option maxRecDepth 8000 in
/-- Claim C7: (a) on a normal capture exit (line back high) the decoder
reports `bit = 1` exactly when the measured low duration — the tick
count in `bitPeriod` at capture exit — is at most 4, and `bit = 0`
otherwise, leaving `error` untouched; (b) with the line stuck low, the
capture reaches the 96-tick threshold, sets `error`, still classifies
(`bit = 0`), waits the 4-tick mark period and pulses `finish` exactly
once (at cycle 151 of the reference run) before returning to `IDLE`
rather than hanging; (c) the `error` flag is not propagated: the `SWIO`
module's outputs — including `done` and `dataRead`, all the dispatcher
ever sees — and the entire next state apart from the flag itself are
unchanged under any value of the flag. -/
theorem c7_decoder_classification :
    (∀ (s : RState) (i0 i1 : RIn), s.fsm = .CAPTURE → i0.line = true →
      (rStep s i0).fsm = .FINISH ∧ (rStep s i0).error = s.error ∧
      (rStep (rStep s i0) i1).bit = decide (s.bitPeriod ≤ 4) ∧
      (rStep (rStep s i0) i1).fsm = .WAIT_MARK) ∧
    (rFinish (rRunN rStuckIn rReset 151) = true ∧
      (rRunN rStuckIn rReset 151).error = true ∧
      (rRunN rStuckIn rReset 151).bit = false ∧
      (rRunN rStuckIn rReset 151).delayPeriod = 0 ∧
      (rRunN rStuckIn rReset 152).fsm = .IDLE ∧
      ((List.range 152).filter fun n => rFinish (rRunN rStuckIn rReset n)) = [151]) ∧
    (∀ (c : CState) (i : CIn) (e : Bool),
      compOut (setRdErr c e) i = compOut c i ∧
      eraseErr (compStep (setRdErr c e) i) = eraseErr (compStep c i)) := by
  refine ⟨?_, by decide, ?_⟩
  · intro s i0 i1 hs hl
    obtain ⟨f, b, e, bt, bp, dt, dp⟩ := s
    simp only at hs
    subst hs
    have h1 : ∃ dt2, rStep ⟨.CAPTURE, b, e, bt, bp, dt, dp⟩ i0 = ⟨.FINISH, b, e, bt, bp, dt2, 4⟩ := by
      simp only [rStep, hl]
      split_ifs <;> first | exact ⟨_, rfl⟩ | simp_all
    obtain ⟨dt2, h1⟩ := h1
    rw [h1]
    exact ⟨rfl, rfl, rfl, rfl⟩
  · intro c i e
    obtain ⟨⟨tf, top, td, tk, twb, tdr⟩, bw, ⟨rf, rb, re, rbt, rbp, rdt, rdp⟩⟩ := c
    refine ⟨rfl, ?_⟩
    have hsplit : ∀ x y : CState, x.tr = y.tr → x.bw = y.bw → x.br = y.br → x = y := by
      intro x y h1 h2 h3
      cases x; cases y
      simp only at h1 h2 h3
      rw [h1, h2, h3]
    apply hsplit
    · rfl
    · rfl
    exact rStep_error_indep rf rb rbt rbp rdt rdp _ e re

/-- Witness for `c7_decoder_classification`: a 3-tick low pulse decodes
to bit 1, and flipping the error flag changes nothing observable. -/
theorem c7_decoder_classification_witness :
    ((rStep ⟨.CAPTURE, false, false, 0, 3, 0, 0⟩ ⟨false, true⟩).fsm = .FINISH ∧
      (rStep ⟨.CAPTURE, false, false, 0, 3, 0, 0⟩ ⟨false, true⟩).error = false ∧
      (rStep (rStep ⟨.CAPTURE, false, false, 0, 3, 0, 0⟩ ⟨false, true⟩) ⟨false, true⟩).bit =
        decide ((3 : Nat) ≤ 4) ∧
      (rStep (rStep ⟨.CAPTURE, false, false, 0, 3, 0, 0⟩ ⟨false, true⟩) ⟨false, true⟩).fsm =
        .WAIT_MARK) ∧
    (compOut (setRdErr ⟨⟨.IDLE, 0, 0, 0, false, 0⟩, wIdleAt 0, rReset⟩ true) ⟨false, false, 0, 0, true⟩ =
      compOut ⟨⟨.IDLE, 0, 0, 0, false, 0⟩, wIdleAt 0, rReset⟩ ⟨false, false, 0, 0, true⟩) := by
  exact ⟨c7_decoder_classification.1 ⟨.CAPTURE, false, false, 0, 3, 0, 0⟩ ⟨false, true⟩ ⟨false, true⟩ rfl rfl,
    (c7_decoder_classification.2.2 ⟨⟨.IDLE, 0, 0, 0, false, 0⟩, wIdleAt 0, rReset⟩
      ⟨false, false, 0, 0, true⟩ true).1⟩

/-- The read-bit phase of the composed module: the transactor is cycling
through `READ_VALUE`/`WAIT_READ_VALUE` and the emitter sits in `IDLE`
with the pad released. -/
def ReadBitPhase (c : CState) : Prop :=
  (c.tr.fsm = .READ_VALUE ∨ c.tr.fsm = .WAIT_READ_VALUE) ∧
  c.bw.fsm = .IDLE ∧ c.bw.oe = false ∧ c.bw.o = false

set_option maxHeartbeats 1600000 in
/-- Claim C2 (supporting theorem for the code bug): during the read-bit
phase the emitter never begins driving the bus — the `triggerRead`
signal asserted by `READ_VALUE` does not exist on `SWIOBitWriter`, so
whatever the inputs, after any step of the composed module the pad is
still released (`oe = 0`, `o = 0`), and the phase is preserved while the
transactor keeps cycling through read bits.  The repository's own
`sim/swio.py` read test instead expects `oe = 1` while each read bit is
elicited. -/
theorem c2_read_phase_never_drives (c : CState) (i : CIn) (h : ReadBitPhase c) :
    (compStep c i).bw.oe = false ∧ (compStep c i).bw.o = false ∧
    (((compStep c i).tr.fsm = .READ_VALUE ∨ (compStep c i).tr.fsm = .WAIT_READ_VALUE) →
      ReadBitPhase (compStep c i)) := by
  obtain ⟨⟨tf, top, td, tk, twb, tdr⟩, ⟨wf, wo, woe, wr, wd, wdt, wbt, wbp⟩, br⟩ := c
  obtain ⟨hf, hw, hoe, ho⟩ := h
  simp only at hf hw hoe ho
  subst hw; subst hoe; subst ho
  rcases hf with hf | hf
  · subst hf
    by_cases htk : tk = 32
    · subst htk
      refine ⟨?_, ?_, ?_⟩
      · dsimp only [compStep, trOut, trInOf, wStep, lineLevel, TrOut.z]
        split_ifs <;> first | rfl | simp_all
      · dsimp only [compStep, trOut, trInOf, wStep, lineLevel, TrOut.z]
        split_ifs <;> first | rfl | simp_all
      · intro hphase
        exfalso
        rcases hphase with hh | hh <;> simp [compStep, trStep, trInOf] at hh
    · refine ⟨?_, ?_, ?_⟩
      · dsimp only [compStep, trOut, trInOf, wStep, lineLevel, TrOut.z]
        rw [if_neg htk]
        split_ifs <;> first | rfl | simp_all
      · dsimp only [compStep, trOut, trInOf, wStep, lineLevel, TrOut.z]
        rw [if_neg htk]
        split_ifs <;> first | rfl | simp_all
      · intro _
        refine ⟨Or.inr ?_, ?_, ?_, ?_⟩
        · dsimp only [compStep, trStep, trInOf]
          rw [if_neg htk]
        all_goals
          (dsimp only [compStep, trOut, trStep, trInOf, wStep, lineLevel, TrOut.z]
           rw [if_neg htk]
           split_ifs <;> first | rfl | simp_all)
  · subst hf
    refine ⟨?_, ?_, ?_⟩
    · dsimp only [compStep, trOut, trInOf, wStep, lineLevel, TrOut.z]
      split_ifs <;> first | rfl | simp_all
    · dsimp only [compStep, trOut, trInOf, wStep, lineLevel, TrOut.z]
      split_ifs <;> first | rfl | simp_all
    · intro _
      refine ⟨?_, ?_, ?_, ?_⟩
      · by_cases hrf : rFinish br = true
        · refine Or.inl ?_
          dsimp only [compStep, trStep, trInOf]
          rw [hrf, if_pos rfl]
        · refine Or.inr ?_
          dsimp only [compStep, trStep, trInOf]
          rw [Bool.not_eq_true] at hrf
          rw [hrf, if_neg (by simp)]
      all_goals
        (dsimp only [compStep, trOut, trStep, trInOf, wStep, lineLevel, TrOut.z]
         split_ifs <;> first | rfl | simp_all)

/-- Witness for `c2_read_phase_never_drives` at a concrete mid-read
state. -/
theorem c2_read_phase_never_drives_witness :
    (compStep ⟨⟨.READ_VALUE, 1, 0, 0, true, 0⟩, wIdleAt 0, rReset⟩ ⟨false, false, 0x35, 0, true⟩).bw.oe = false ∧
    (compStep ⟨⟨.READ_VALUE, 1, 0, 0, true, 0⟩, wIdleAt 0, rReset⟩ ⟨false, false, 0x35, 0, true⟩).bw.o = false :=
  ⟨(c2_read_phase_never_drives ⟨⟨.READ_VALUE, 1, 0, 0, true, 0⟩, wIdleAt 0, rReset⟩
      ⟨false, false, 0x35, 0, true⟩ ⟨Or.inl rfl, rfl, rfl, rfl⟩).1,
   (c2_read_phase_never_drives ⟨⟨.READ_VALUE, 1, 0, 0, true, 0⟩, wIdleAt 0, rReset⟩
      ⟨false, false, 0x35, 0, true⟩ ⟨Or.inl rfl, rfl, rfl, rfl⟩).2.1⟩

/-! ## Canonical single-transaction runs of the transactor -/

/-- Events visible on the transactor's control interface. -/
inductive TrEv
  | start (b : Bool)
  | readCycle
  | stop
  | done
  deriving DecidableEq, Repr

/-- The canonical driving environment for one transaction: no new request
pulses, constant `reg` and `dataWrite`, the bit writer and bit reader
finishing on every cycle, and the reader presenting the head of the
remaining bit stream `bl`. -/
def trQuiet (r d : Nat) (bl : List Bool) : TrIn :=
  ⟨false, false, r, d, true, true, bl.headD false⟩

/-- The event visible on one cycle: a writer `start` pulse is tagged with
the bit value registered for the writer at the end of that cycle (the
value the writer samples in its `SETUP` state on the next cycle). -/
def trEv (s : TrState) (i : TrIn) (s2 : TrState) : Option TrEv :=
  let o := trOut s i
  if o.wStart then some (.start s2.writerBit)
  else if o.rStart then some .readCycle
  else if o.wStop then some .stop
  else if o.done then some .done
  else none

/-- Events of `n` cycles of the canonical run; the environment consumes
one bit of `bl` on each completed read cycle (a cycle spent in
`WAIT_READ_VALUE`, where the reader's `finish` is taken). -/
def trCanonEvs (r d : Nat) : Nat → TrState → List Bool → List TrEv
  | 0, _, _ => []
  | n + 1, s, bl =>
      let i := trQuiet r d bl
      (trEv s i (trStep s i)).toList ++
        trCanonEvs r d n (trStep s i) (if s.fsm = .WAIT_READ_VALUE then bl.tail else bl)

/-- Final state of `n` cycles of the canonical run. -/
def trCanonEnd (r d : Nat) : Nat → TrState → List Bool → TrState
  | 0, s, _ => s
  | n + 1, s, bl =>
      trCanonEnd r d n (trStep s (trQuiet r d bl))
        (if s.fsm = .WAIT_READ_VALUE then bl.tail else bl)

/-- MSB-first assembly of a bit list into a number. -/
def msbVal (bl : List Bool) : Nat :=
  bl.foldl (fun a b => 2 * a + (if b then 1 else 0)) 0

/-- The value accumulated by the transactor's read loop: each decoded bit
is shifted into the least-significant position of the 32-bit `data`
register. -/
def readFold (a : Nat) : List Bool → Nat
  | [] => a
  | b :: tl => readFold (2 * a % 2 ^ 32 + (if b then 1 else 0)) tl

theorem revBits_lt (n x : Nat) : revBits n x < 2 ^ n := by
  induction n generalizing x with
  | zero => simp [revBits]
  | succ n ih =>
      have h1 := ih x
      have h2 : x / 2 ^ n % 2 < 2 := Nat.mod_lt _ (by omega)
      rw [revBits, pow_succ]
      omega

theorem foldl_msb (bl : List Bool) : ∀ a : Nat,
    bl.foldl (fun a b => 2 * a + (if b then 1 else 0)) a = a * 2 ^ bl.length + msbVal bl := by
  induction bl with
  | nil => intro a; simp [msbVal]
  | cons b tl ih =>
      intro a
      have hm : msbVal (b :: tl) = (2 * 0 + if b then (1 : Nat) else 0) * 2 ^ tl.length + msbVal tl := by
        rw [msbVal, List.foldl_cons, ih]
      rw [List.foldl_cons, ih, hm]
      simp only [List.length_cons, pow_succ]
      ring

/-- With no 32-bit wraparound possible, the read loop's shift-accumulate
equals the pure MSB-first assembly. -/
theorem readFold_eq (bl : List Bool) : ∀ a : Nat,
    a < 2 ^ (32 - bl.length) → bl.length ≤ 32 →
    readFold a bl = a * 2 ^ bl.length + msbVal bl := by
  induction bl with
  | nil => intro a _ _; simp [readFold, msbVal]
  | cons b tl ih =>
      intro a ha hl
      have hb : (if b then (1 : Nat) else 0) ≤ 1 := by split <;> omega
      have hl' : tl.length ≤ 32 := by simp only [List.length_cons] at hl; omega
      have hpow : 2 ^ (32 - (tl.length + 1)) * 2 = 2 ^ (32 - tl.length) := by
        rw [← pow_succ]
        congr 1
        simp only [List.length_cons] at hl
        omega
      have hlen : (b :: tl).length = tl.length + 1 := by simp
      rw [hlen] at ha
      have hlt : 2 * a + (if b then 1 else 0) < 2 ^ (32 - tl.length) := by omega
      have hle32 : (2 : Nat) ^ (32 - tl.length) ≤ 2 ^ 32 :=
        Nat.pow_le_pow_right (by omega) (by omega)
      have hm : msbVal (b :: tl) = (2 * 0 + if b then (1 : Nat) else 0) * 2 ^ tl.length + msbVal tl := by
        rw [msbVal, List.foldl_cons, foldl_msb]
      rw [readFold, Nat.mod_eq_of_lt (by omega), ih _ (by omega) hl', hm]
      simp only [List.length_cons, pow_succ]
      ring

/-- The LSB-first bits of the MSB-first assembly of `bl` are `bl`
reversed: the first bit delivered lands in the most significant
position. -/
theorem bitsLSB_msbVal (bl : List Bool) : bitsLSB (msbVal bl) bl.length = bl.reverse := by
  induction bl using List.reverseRecOn with
  | nil => simp [msbVal, bitsLSB]
  | append_singleton tl b ih =>
      have hsnoc : msbVal (tl ++ [b]) = 2 * msbVal tl + (if b then 1 else 0) := by
        rw [msbVal, List.foldl_append]
        rfl
      have hb : (if b then (1 : Nat) else 0) ≤ 1 := by split <;> omega
      have h3 : (2 * msbVal tl + if b then (1 : Nat) else 0) / 2 = msbVal tl := by omega
      have hbit : decide ((2 * msbVal tl + if b then (1 : Nat) else 0) % 2 = 1) = b := by
        have h2 : (2 * msbVal tl + if b then (1 : Nat) else 0) % 2 = (if b then 1 else 0) := by
          omega
        rw [h2]
        cases b <;> simp
      have hlen : (tl ++ [b]).length = tl.length + 1 := by simp
      rw [hlen, hsnoc, bitsLSB, hbit, h3, ih]
      simp

theorem trCanonEvs_succ (r d n : Nat) (s : TrState) (bl : List Bool) :
    trCanonEvs r d (n + 1) s bl =
      (trEv s (trQuiet r d bl) (trStep s (trQuiet r d bl))).toList ++
        trCanonEvs r d n (trStep s (trQuiet r d bl))
          (if s.fsm = .WAIT_READ_VALUE then bl.tail else bl) := rfl

theorem trCanonEnd_succ (r d n : Nat) (s : TrState) (bl : List Bool) :
    trCanonEnd r d (n + 1) s bl =
      trCanonEnd r d n (trStep s (trQuiet r d bl))
        (if s.fsm = .WAIT_READ_VALUE then bl.tail else bl) := rfl

theorem trCanonEvs_step (r d n : Nat) (s s2 : TrState) (bl : List Bool)
    (hstep : trStep s (trQuiet r d bl) = s2) (hs : ¬ s.fsm = .WAIT_READ_VALUE) :
    trCanonEvs r d (n + 1) s bl =
      (trEv s (trQuiet r d bl) s2).toList ++ trCanonEvs r d n s2 bl := by
  rw [trCanonEvs_succ, hstep, if_neg hs]

theorem trCanonEvs_stepConsume (r d n : Nat) (s s2 : TrState) (bl : List Bool)
    (hstep : trStep s (trQuiet r d bl) = s2) (hs : s.fsm = .WAIT_READ_VALUE) :
    trCanonEvs r d (n + 1) s bl =
      (trEv s (trQuiet r d bl) s2).toList ++ trCanonEvs r d n s2 bl.tail := by
  rw [trCanonEvs_succ, hstep, if_pos hs]

theorem trCanonEnd_step (r d n : Nat) (s s2 : TrState) (bl : List Bool)
    (hstep : trStep s (trQuiet r d bl) = s2) (hs : ¬ s.fsm = .WAIT_READ_VALUE) :
    trCanonEnd r d (n + 1) s bl = trCanonEnd r d n s2 bl := by
  rw [trCanonEnd_succ, hstep, if_neg hs]

theorem trCanonEnd_stepConsume (r d n : Nat) (s s2 : TrState) (bl : List Bool)
    (hstep : trStep s (trQuiet r d bl) = s2) (hs : s.fsm = .WAIT_READ_VALUE) :
    trCanonEnd r d (n + 1) s bl = trCanonEnd r d n s2 bl.tail := by
  rw [trCanonEnd_succ, hstep, if_pos hs]

/-- Two cycles from `START`: the start marker (a `1` bit) is launched and
awaited; the register value is bit-reversed into the shift register. -/
theorem trCanon_start (r d n : Nat) (op x k : Nat) (wb : Bool) (dr : Nat) (bl : List Bool) :
    trCanonEvs r d (n + 2) ⟨.START, op, x, k, wb, dr⟩ bl =
      .start true :: trCanonEvs r d n ⟨.SEND_REGISTER, op, revBits 7 (r % 128), 0, true, dr⟩ bl ∧
    trCanonEnd r d (n + 2) ⟨.START, op, x, k, wb, dr⟩ bl =
      trCanonEnd r d n ⟨.SEND_REGISTER, op, revBits 7 (r % 128), 0, true, dr⟩ bl :=
  ⟨rfl, rfl⟩

/-- Two mid-loop cycles of the register loop: one register bit is shifted
out LSB-first and its transmission awaited. -/
theorem trCanon_sendStep (r d n : Nat) (op x k : Nat) (wb : Bool) (dr : Nat) (bl : List Bool)
    (hk : ¬ k = 7) (hk64 : k < 63) :
    trCanonEvs r d (n + 2) ⟨.SEND_REGISTER, op, x, k, wb, dr⟩ bl =
      .start (decide (x % 2 = 1)) ::
        trCanonEvs r d n ⟨.SEND_REGISTER, op, x / 2, k + 1, decide (x % 2 = 1), dr⟩ bl ∧
    trCanonEnd r d (n + 2) ⟨.SEND_REGISTER, op, x, k, wb, dr⟩ bl =
      trCanonEnd r d n ⟨.SEND_REGISTER, op, x / 2, k + 1, decide (x % 2 = 1), dr⟩ bl := by
  have hmod : (k + 1) % 64 = k + 1 := Nat.mod_eq_of_lt (by omega)
  have hstep1 : trStep ⟨.SEND_REGISTER, op, x, k, wb, dr⟩ (trQuiet r d bl) =
      ⟨.WAIT_SEND_REGISTER, op, x / 2, k, decide (x % 2 = 1), dr⟩ := by
    simp only [trStep]
    rw [if_neg hk]
  have hstep2 : trStep ⟨.WAIT_SEND_REGISTER, op, x / 2, k, decide (x % 2 = 1), dr⟩
      (trQuiet r d bl) =
      ⟨.SEND_REGISTER, op, x / 2, k + 1, decide (x % 2 = 1), dr⟩ := by
    simp [trStep, trQuiet, hmod]
  constructor
  · rw [show n + 2 = n + 1 + 1 from rfl,
        trCanonEvs_step r d (n + 1) _ _ bl hstep1 (by simp),
        trCanonEvs_step r d n _ _ bl hstep2 (by simp)]
    simp [trEv, trOut, trQuiet, TrOut.z]
  · rw [show n + 2 = n + 1 + 1 from rfl,
        trCanonEnd_step r d (n + 1) _ _ bl hstep1 (by simp),
        trCanonEnd_step r d n _ _ bl hstep2 (by simp)]

/-- The register loop: from `SEND_REGISTER` with `bitCounter = k`, the
remaining `7 - k` register bits are shifted out LSB-first, two cycles per
bit, leaving the loop at `bitCounter = 7`. -/
theorem trCanon_regLoop (r d op : Nat) : ∀ (j k x : Nat) (wb : Bool) (dr n : Nat)
    (bl : List Bool), k + j = 7 →
    ∃ wb2 : Bool,
      trCanonEvs r d (2 * j + n) ⟨.SEND_REGISTER, op, x, k, wb, dr⟩ bl =
        (bitsLSB x j).map TrEv.start ++
          trCanonEvs r d n ⟨.SEND_REGISTER, op, x / 2 ^ j, 7, wb2, dr⟩ bl ∧
      trCanonEnd r d (2 * j + n) ⟨.SEND_REGISTER, op, x, k, wb, dr⟩ bl =
        trCanonEnd r d n ⟨.SEND_REGISTER, op, x / 2 ^ j, 7, wb2, dr⟩ bl := by
  intro j
  induction j with
  | zero =>
      intro k x wb dr n bl hk
      have hk7 : k = 7 := by omega
      subst hk7
      exact ⟨wb, by simp [bitsLSB], by simp⟩
  | succ j ih =>
      intro k x wb dr n bl hk
      have hk7 : ¬ k = 7 := by omega
      have h2 : 2 * (j + 1) + n = (2 * j + n) + 2 := by ring
      obtain ⟨h1, h1e⟩ := trCanon_sendStep r d (2 * j + n) op x k wb dr bl hk7 (by omega)
      obtain ⟨wb2, h3, h3e⟩ := ih (k + 1) (x / 2) (decide (x % 2 = 1)) dr n bl (by omega)
      refine ⟨wb2, ?_, ?_⟩
      · rw [h2, h1, h3, show bitsLSB x (j + 1) = decide (x % 2 = 1) :: bitsLSB (x / 2) j from rfl]
        simp [Nat.div_div_eq_div_mul, pow_succ, mul_comm]
      · rw [h2, h1e, h3e, Nat.div_div_eq_div_mul,
          show (2 : Nat) * 2 ^ j = 2 ^ (j + 1) by rw [pow_succ]; ring]

/-- Two cycles from `SEND_REGISTER` at `bitCounter = 7` for a write: the
direction bit `1` is launched and awaited, and the write data is
bit-reversed into the shift register. -/
theorem trCanon_dirWrite (r d n : Nat) (x : Nat) (wb : Bool) (dr : Nat) (bl : List Bool) :
    trCanonEvs r d (n + 2) ⟨.SEND_REGISTER, 2, x, 7, wb, dr⟩ bl =
      .start true ::
        trCanonEvs r d n ⟨.WRITE_VALUE, 2, revBits 32 (d % 2 ^ 32), 0, true, dr⟩ bl ∧
    trCanonEnd r d (n + 2) ⟨.SEND_REGISTER, 2, x, 7, wb, dr⟩ bl =
      trCanonEnd r d n ⟨.WRITE_VALUE, 2, revBits 32 (d % 2 ^ 32), 0, true, dr⟩ bl :=
  ⟨rfl, rfl⟩

/-- Two cycles from `SEND_REGISTER` at `bitCounter = 7` for a read: the
direction bit `0` is launched and awaited. -/
theorem trCanon_dirRead (r d n : Nat) (x : Nat) (wb : Bool) (dr : Nat) (bl : List Bool) :
    trCanonEvs r d (n + 2) ⟨.SEND_REGISTER, 1, x, 7, wb, dr⟩ bl =
      .start false :: trCanonEvs r d n ⟨.READ_VALUE, 1, x, 0, false, dr⟩ bl ∧
    trCanonEnd r d (n + 2) ⟨.SEND_REGISTER, 1, x, 7, wb, dr⟩ bl =
      trCanonEnd r d n ⟨.READ_VALUE, 1, x, 0, false, dr⟩ bl :=
  ⟨rfl, rfl⟩

/-- Two mid-loop cycles of the write loop: one data bit is shifted out
LSB-first and its transmission awaited. -/
theorem trCanon_writeStep (r d n : Nat) (x k : Nat) (wb : Bool) (dr : Nat) (bl : List Bool)
    (hk : ¬ k = 32) (hk64 : k < 63) :
    trCanonEvs r d (n + 2) ⟨.WRITE_VALUE, 2, x, k, wb, dr⟩ bl =
      .start (decide (x % 2 = 1)) ::
        trCanonEvs r d n ⟨.WRITE_VALUE, 2, x / 2, k + 1, decide (x % 2 = 1), dr⟩ bl ∧
    trCanonEnd r d (n + 2) ⟨.WRITE_VALUE, 2, x, k, wb, dr⟩ bl =
      trCanonEnd r d n ⟨.WRITE_VALUE, 2, x / 2, k + 1, decide (x % 2 = 1), dr⟩ bl := by
  have hmod : (k + 1) % 64 = k + 1 := Nat.mod_eq_of_lt (by omega)
  have hstep1 : trStep ⟨.WRITE_VALUE, 2, x, k, wb, dr⟩ (trQuiet r d bl) =
      ⟨.WAIT_WRITE_VALUE, 2, x / 2, k, decide (x % 2 = 1), dr⟩ := by
    simp only [trStep]
    rw [if_neg hk]
  have hstep2 : trStep ⟨.WAIT_WRITE_VALUE, 2, x / 2, k, decide (x % 2 = 1), dr⟩
      (trQuiet r d bl) =
      ⟨.WRITE_VALUE, 2, x / 2, k + 1, decide (x % 2 = 1), dr⟩ := by
    simp [trStep, trQuiet, hmod]
  constructor
  · rw [show n + 2 = n + 1 + 1 from rfl,
        trCanonEvs_step r d (n + 1) _ _ bl hstep1 (by simp),
        trCanonEvs_step r d n _ _ bl hstep2 (by simp)]
    simp [trEv, trOut, trQuiet, TrOut.z, hk]
  · rw [show n + 2 = n + 1 + 1 from rfl,
        trCanonEnd_step r d (n + 1) _ _ bl hstep1 (by simp),
        trCanonEnd_step r d n _ _ bl hstep2 (by simp)]

/-- The final two cycles of a write: the stop marker is requested, then
`done` pulses and the FSM returns to `IDLE`. -/
theorem trCanon_writeEnd (r d : Nat) (x : Nat) (wb : Bool) (dr : Nat) (bl : List Bool) :
    trCanonEvs r d 2 ⟨.WRITE_VALUE, 2, x, 32, wb, dr⟩ bl = [.stop, .done] ∧
    trCanonEnd r d 2 ⟨.WRITE_VALUE, 2, x, 32, wb, dr⟩ bl = ⟨.IDLE, 2, x, 32, wb, dr⟩ :=
  ⟨rfl, rfl⟩

/-- The write loop: the 32 data bits are shifted out LSB-first from the
(bit-reversed) shift register, then stop and done follow. -/
theorem trCanon_writeLoop (r d : Nat) : ∀ (j k x : Nat) (wb : Bool) (dr : Nat)
    (bl : List Bool), k + j = 32 →
    ∃ wb2 : Bool,
      trCanonEvs r d (2 * j + 2) ⟨.WRITE_VALUE, 2, x, k, wb, dr⟩ bl =
        (bitsLSB x j).map TrEv.start ++ [.stop, .done] ∧
      trCanonEnd r d (2 * j + 2) ⟨.WRITE_VALUE, 2, x, k, wb, dr⟩ bl =
        ⟨.IDLE, 2, x / 2 ^ j, 32, wb2, dr⟩ := by
  intro j
  induction j with
  | zero =>
      intro k x wb dr bl hk
      have hk32 : k = 32 := by omega
      subst hk32
      refine ⟨wb, ?_, ?_⟩
      · simpa [bitsLSB] using (trCanon_writeEnd r d x wb dr bl).1
      · simpa using (trCanon_writeEnd r d x wb dr bl).2
  | succ j ih =>
      intro k x wb dr bl hk
      have hk32 : ¬ k = 32 := by omega
      have h2 : 2 * (j + 1) + 2 = (2 * j + 2) + 2 := by ring
      obtain ⟨h1, h1e⟩ := trCanon_writeStep r d (2 * j + 2) x k wb dr bl hk32 (by omega)
      obtain ⟨wb2, h3, h3e⟩ := ih (k + 1) (x / 2) (decide (x % 2 = 1)) dr bl (by omega)
      refine ⟨wb2, ?_, ?_⟩
      · rw [h2, h1, h3, show bitsLSB x (j + 1) = decide (x % 2 = 1) :: bitsLSB (x / 2) j from rfl]
        simp
      · rw [h2, h1e, h3e, Nat.div_div_eq_div_mul,
          show (2 : Nat) * 2 ^ j = 2 ^ (j + 1) by rw [pow_succ]; ring]

/-- The final two cycles of a read: the stop marker is requested with the
assembled value latched into `dataRead`, then `done` pulses. -/
theorem trCanon_readEnd (r d : Nat) (a : Nat) (wb : Bool) (dr : Nat) (bl : List Bool) :
    trCanonEvs r d 2 ⟨.READ_VALUE, 1, a, 32, wb, dr⟩ bl = [.stop, .done] ∧
    trCanonEnd r d 2 ⟨.READ_VALUE, 1, a, 32, wb, dr⟩ bl = ⟨.IDLE, 1, a, 32, wb, a⟩ :=
  ⟨rfl, rfl⟩

/-- The read loop: one read cycle per remaining bit, each decoded bit
shifted into the least-significant position of the shift register, then
stop and done. -/
theorem trCanon_readLoop (r d : Nat) : ∀ (bl : List Bool) (k a : Nat) (wb : Bool) (dr : Nat),
    k + bl.length = 32 →
    trCanonEvs r d (2 * bl.length + 2) ⟨.READ_VALUE, 1, a, k, wb, dr⟩ bl =
      List.replicate bl.length .readCycle ++ [.stop, .done] ∧
    trCanonEnd r d (2 * bl.length + 2) ⟨.READ_VALUE, 1, a, k, wb, dr⟩ bl =
      ⟨.IDLE, 1, readFold a bl, 32, wb, readFold a bl⟩ := by
  intro bl
  induction bl with
  | nil =>
      intro k a wb dr hk
      have hk32 : k = 32 := by simp only [List.length_nil] at hk; omega
      subst hk32
      constructor
      · simpa using (trCanon_readEnd r d a wb dr []).1
      · simpa [readFold] using (trCanon_readEnd r d a wb dr []).2
  | cons b tl ih =>
      intro k a wb dr hk
      have hk32 : ¬ k = 32 := by simp only [List.length_cons] at hk; omega
      have hmod : (k + 1) % 64 = k + 1 := by
        simp only [List.length_cons] at hk
        omega
      have hstep1 : trStep ⟨.READ_VALUE, 1, a, k, wb, dr⟩ (trQuiet r d (b :: tl)) =
          ⟨.WAIT_READ_VALUE, 1, a, k, wb, dr⟩ := by
        simp only [trStep]
        rw [if_neg hk32]
      have hstep2 : trStep ⟨.WAIT_READ_VALUE, 1, a, k, wb, dr⟩ (trQuiet r d (b :: tl)) =
          ⟨.READ_VALUE, 1, 2 * a % 2 ^ 32 + (if b then 1 else 0), k + 1, wb, dr⟩ := by
        simp [trStep, trQuiet, hmod]
      have hlen : (b :: tl).length = tl.length + 1 := by simp
      have h2 : 2 * (b :: tl).length + 2 = ((2 * tl.length + 2) + 1) + 1 := by
        rw [hlen]; ring
      obtain ⟨h3, h3e⟩ := ih (k + 1) (2 * a % 2 ^ 32 + (if b then 1 else 0)) wb dr
        (by simp only [List.length_cons] at hk; omega)
      constructor
      · rw [h2, trCanonEvs_step r d ((2 * tl.length + 2) + 1) _ _ (b :: tl) hstep1 (by simp),
          trCanonEvs_stepConsume r d (2 * tl.length + 2) _ _ (b :: tl) hstep2 (by simp)]
        simp only [List.tail_cons] at *
        rw [h3, hlen, List.replicate_succ]
        simp [trEv, trOut, trQuiet, TrOut.z, hk32]
      · rw [h2, trCanonEnd_step r d ((2 * tl.length + 2) + 1) _ _ (b :: tl) hstep1 (by simp),
          trCanonEnd_stepConsume r d (2 * tl.length + 2) _ _ (b :: tl) hstep2 (by simp)]
        simp only [List.tail_cons]
        rw [h3e]
        simp [readFold]

/-- Claim C3: every transaction started by a `startRead` or `startWrite`
pulse received in `IDLE` performs exactly this sequence before `done`
fires and the FSM returns to `IDLE`: one start bit of value 1; the 7 bits
of `reg` most-significant bit first; one direction bit (1 for a write, 0
for a read); then for a write the 32 bits of `dataWrite` MSB-first, or
for a read 32 bit-read cycles whose decoded bits are shifted into the
least-significant position so the first bit received becomes the most
significant bit of `dataRead`; then the stop marker and the `done`
pulse.  Stated over the canonical 84-cycle run from the cycle after the
request pulse, for any residual `IDLE` state. -/
theorem c3_transaction_sequence (r d : Nat) (bs : List Bool)
    (op0 x0 k0 : Nat) (wb0 : Bool) (dr0 : Nat)
    (hr : r < 128) (hd : d < 2 ^ 32) (hbs : bs.length = 32) :
    (trCanonEvs r d 84 (trStep ⟨.IDLE, op0, x0, k0, wb0, dr0⟩
        ⟨false, true, r, d, true, true, false⟩) bs =
      [TrEv.start true] ++ (bitsLSB r 7).reverse.map TrEv.start ++
        [TrEv.start true] ++ (bitsLSB d 32).reverse.map TrEv.start ++
        [TrEv.stop, TrEv.done] ∧
     (trCanonEnd r d 84 (trStep ⟨.IDLE, op0, x0, k0, wb0, dr0⟩
        ⟨false, true, r, d, true, true, false⟩) bs).fsm = .IDLE ∧
     (trCanonEnd r d 84 (trStep ⟨.IDLE, op0, x0, k0, wb0, dr0⟩
        ⟨false, true, r, d, true, true, false⟩) bs).dataRead = dr0) ∧
    (trCanonEvs r d 84 (trStep ⟨.IDLE, op0, x0, k0, wb0, dr0⟩
        ⟨true, false, r, d, true, true, false⟩) bs =
      [TrEv.start true] ++ (bitsLSB r 7).reverse.map TrEv.start ++
        [TrEv.start false] ++ List.replicate 32 TrEv.readCycle ++
        [TrEv.stop, TrEv.done] ∧
     (trCanonEnd r d 84 (trStep ⟨.IDLE, op0, x0, k0, wb0, dr0⟩
        ⟨true, false, r, d, true, true, false⟩) bs).fsm = .IDLE ∧
     bitsLSB (trCanonEnd r d 84 (trStep ⟨.IDLE, op0, x0, k0, wb0, dr0⟩
        ⟨true, false, r, d, true, true, false⟩) bs).dataRead 32 = bs.reverse) := by
  have h7 : revBits 7 r / 2 ^ 7 = 0 := Nat.div_eq_of_lt (revBits_lt 7 r)
  have hrf : readFold 0 bs = msbVal bs := by
    have h0 : (0 : Nat) < 2 ^ (32 - bs.length) := Nat.pos_pow_of_pos _ (by omega)
    have := readFold_eq bs 0 h0 (by rw [hbs])
    simpa using this
  constructor
  · -- write transaction
    have hstep0 : trStep ⟨.IDLE, op0, x0, k0, wb0, dr0⟩
        ⟨false, true, r, d, true, true, false⟩ = ⟨.START, 2, x0, k0, wb0, dr0⟩ := rfl
    obtain ⟨hs, hse⟩ := trCanon_start r d 82 2 x0 k0 wb0 dr0 bs
    rw [Nat.mod_eq_of_lt hr] at hs hse
    simp only [show (82 : Nat) + 2 = 84 from rfl] at hs hse
    obtain ⟨wb2, hrl, hrle⟩ :=
      trCanon_regLoop r d 2 7 0 (revBits 7 r) true dr0 68 bs (by omega)
    simp only [show 2 * 7 + 68 = 82 from rfl] at hrl hrle
    rw [h7] at hrl hrle
    obtain ⟨hdw, hdwe⟩ := trCanon_dirWrite r d 66 0 wb2 dr0 bs
    rw [Nat.mod_eq_of_lt hd] at hdw hdwe
    simp only [show (66 : Nat) + 2 = 68 from rfl] at hdw hdwe
    obtain ⟨wb3, hwl, hwle⟩ :=
      trCanon_writeLoop r d 32 0 (revBits 32 d) true dr0 bs (by omega)
    simp only [show 2 * 32 + 2 = 66 from rfl] at hwl hwle
    refine ⟨?_, ?_, ?_⟩
    · rw [hstep0, hs, hrl, hdw, hwl, bitsLSB_revBits 7 r, bitsLSB_revBits 32 d]
      simp
    · rw [hstep0, hse, hrle, hdwe, hwle]
    · rw [hstep0, hse, hrle, hdwe, hwle]
  · -- read transaction
    have hstep0 : trStep ⟨.IDLE, op0, x0, k0, wb0, dr0⟩
        ⟨true, false, r, d, true, true, false⟩ = ⟨.START, 1, x0, k0, wb0, dr0⟩ := rfl
    obtain ⟨hs, hse⟩ := trCanon_start r d 82 1 x0 k0 wb0 dr0 bs
    rw [Nat.mod_eq_of_lt hr] at hs hse
    simp only [show (82 : Nat) + 2 = 84 from rfl] at hs hse
    obtain ⟨wb2, hrl, hrle⟩ :=
      trCanon_regLoop r d 1 7 0 (revBits 7 r) true dr0 68 bs (by omega)
    simp only [show 2 * 7 + 68 = 82 from rfl] at hrl hrle
    rw [h7] at hrl hrle
    obtain ⟨hdr, hdre⟩ := trCanon_dirRead r d 66 0 wb2 dr0 bs
    simp only [show (66 : Nat) + 2 = 68 from rfl] at hdr hdre
    obtain ⟨hrd, hrde⟩ := trCanon_readLoop r d bs 0 0 false dr0 (by rw [hbs])
    rw [hbs] at hrd hrde
    simp only [show 2 * 32 + 2 = 66 from rfl] at hrd hrde
    refine ⟨?_, ?_, ?_⟩
    · rw [hstep0, hs, hrl, hdr, hrd, bitsLSB_revBits 7 r]
      simp
    · rw [hstep0, hse, hrle, hdre, hrde]
    · rw [hstep0, hse, hrle, hdre, hrde]
      dsimp only
      rw [hrf]
      have := bitsLSB_msbVal bs
      rw [hbs] at this
      exact this

/-- Witness for C3 at `r = 0x35`, `d = 0x55aaca15`, all-ones read bits. -/
theorem c3_transaction_sequence_witness :
    (0x35 : Nat) < 128 ∧ (0x55aaca15 : Nat) < 2 ^ 32 ∧
      (List.replicate 32 true).length = 32 ∧
      trCanonEvs 0x35 0x55aaca15 84 (trStep ⟨.IDLE, 0, 0, 0, false, 0⟩
          ⟨false, true, 0x35, 0x55aaca15, true, true, false⟩) (List.replicate 32 true) =
        [TrEv.start true] ++ (bitsLSB 0x35 7).reverse.map TrEv.start ++
          [TrEv.start true] ++ (bitsLSB 0x55aaca15 32).reverse.map TrEv.start ++
          [TrEv.stop, TrEv.done] ∧
      (trCanonEnd 0x35 0x55aaca15 84 (trStep ⟨.IDLE, 0, 0, 0, false, 0⟩
          ⟨true, false, 0x35, 0x55aaca15, true, true, false⟩) (List.replicate 32 true)).fsm
        = .IDLE := by
  have h := c3_transaction_sequence 0x35 0x55aaca15 (List.replicate 32 true) 0 0 0 false 0
    (by decide) (by decide) (by decide)
  exact ⟨by decide, by decide, by decide, h.1.1, h.2.2.1⟩

end ICELink
